import Mathlib

/-!
Verification of the dependency-checker engine
(`src/plugins/utils/scripts/dependency-checker.py`).

Python strings are modelled as `List Char`; Python `None` becomes `Option`;
Python dicts (which preserve insertion order and have unique keys) become
association lists `List (key × value)`, with key uniqueness stated as a
`Nodup` hypothesis where a theorem needs it.  Whitespace is modelled as the
ASCII whitespace characters recognised by Python's `str.strip`.
-/

/-- Characters treated as whitespace by `str.strip()` (ASCII subset). -/
def isPySpace (c : Char) : Bool :=
  c = ' ' || c = '\t' || c = '\n' || c = '\r' || c = '\x0b' || c = '\x0c'

/-- Python `s.lstrip()`: drop leading whitespace. -/
def lstripWs (l : List Char) : List Char := l.dropWhile isPySpace

/-- Python `s.rstrip()`: drop trailing whitespace. -/
def rstripWs (l : List Char) : List Char := (l.reverse.dropWhile isPySpace).reverse

/-- Python `s.strip()`: drop whitespace at both ends. -/
def pyStrip (l : List Char) : List Char := lstripWs (rstripWs l)

/-- Python string `<`: lexicographic comparison by code point. -/
def pyStrLt : List Char → List Char → Bool
  | [], [] => false
  | [], _ :: _ => true
  | _ :: _, [] => false
  | a :: s, b :: t =>
    if a.toNat < b.toNat then true
    else if b.toNat < a.toNat then false
    else pyStrLt s t

/-- Shorthand: characters of a string literal. -/
def cs (s : String) : List Char := s.toList

/-- Decimal digits of a natural number, fuel-based so it reduces by `decide`. -/
def natToCharsAux : Nat → Nat → List Char → List Char
  | 0, _, acc => acc
  | fuel + 1, n, acc =>
    if n < 10 then Char.ofNat (48 + n) :: acc
    else natToCharsAux fuel (n / 10) (Char.ofNat (48 + n % 10) :: acc)

/-- Decimal representation of a natural number, as Python `str(int)` produces. -/
def natToChars (n : Nat) : List Char := natToCharsAux (n + 1) n []

/-- Semantic version record, as in the `Version` dataclass. -/
structure Version where
  major : Nat
  minor : Nat
  patch : Nat
  prerelease : List Char := []
  build : List Char := []
deriving DecidableEq, Repr

/-- Character class `[a-zA-Z0-9.-]` used for prerelease and build segments. -/
def isIdentChar (c : Char) : Bool :=
  c.isAlpha || c.isDigit || c = '.' || c = '-'

/-- Numeric value of a digit run (Python `int`). -/
def natOfDigits (l : List Char) : Nat :=
  l.foldl (fun n c => n * 10 + (c.toNat - 48)) 0

/-- Matcher for the anchored pattern
`(\d+)(\.(\d+))?(\.(\d+))?(-([a-zA-Z0-9.-]+))?(\+([a-zA-Z0-9.-]+))?` against
the whole cleaned string.  The pattern is deterministic: each optional group
starts with a delimiter (`.`, `-`, `+`) no later group can consume, so greedy
matching without backtracking is equivalent to the regex. -/
def matchSemver (l : List Char) : Option Version :=
  let (ds, r1) := l.span Char.isDigit
  if ds = [] then none
  else
    let step := fun (r : List Char) =>
      match r with
      | '.' :: t =>
        let (ds2, rr) := t.span Char.isDigit
        if ds2 = [] then none else some (natOfDigits ds2, rr)
      | _ => some (0, r)
    match step r1 with
    | none => none
    | some (minor, r2) =>
      match step r2 with
      | none => none
      | some (patch, r3) =>
        let seg := fun (mark : Char) (r : List Char) =>
          match r with
          | c :: t =>
            if c = mark then
              let (pr, rr) := t.span isIdentChar
              if pr = [] then none else some (pr, rr)
            else some (([] : List Char), r)
          | [] => some (([] : List Char), r)
        match seg '-' r3 with
        | none => none
        | some (pre, r4) =>
          match seg '+' r4 with
          | none => none
          | some (bld, r5) =>
            if r5 = [] then
              some ⟨natOfDigits ds, minor, patch, pre, bld⟩
            else none

/-- `^[0-9a-f]{12}$`: a 12-character lowercase-hex commit hash. -/
def isHex12 (l : List Char) : Bool :=
  l.length = 12 && l.all (fun c => c.isDigit || ('a' ≤ c && c ≤ 'f'))

/-- `Version.parse`: strip whitespace, strip leading `v`s, reject 12-hex
commit hashes, then match the semver pattern. -/
def Version.parse (version_str : List Char) : Option Version :=
  if version_str = [] then none
  else
    let cleaned := (pyStrip version_str).dropWhile (· = 'v')
    if isHex12 cleaned then none
    else matchSemver cleaned

/-- `Version.__str__`. -/
def Version.toStr (v : Version) : List Char :=
  natToChars v.major ++ '.' :: natToChars v.minor ++ '.' :: natToChars v.patch
    ++ (if v.prerelease ≠ [] then '-' :: v.prerelease else [])
    ++ (if v.build ≠ [] then '+' :: v.build else [])

/-- Python tuple `<` on `(major, minor, patch)`. -/
def tripleLt (a b : Nat × Nat × Nat) : Bool :=
  a.1 < b.1 || (a.1 = b.1 && (a.2.1 < b.2.1 || (a.2.1 = b.2.1 && a.2.2 < b.2.2)))

/-- `Version.__lt__`. -/
def Version.lt (a b : Version) : Bool :=
  if (a.major, a.minor, a.patch) ≠ (b.major, b.minor, b.patch) then
    tripleLt (a.major, a.minor, a.patch) (b.major, b.minor, b.patch)
  else if a.prerelease ≠ [] && b.prerelease = [] then true
  else if a.prerelease = [] && b.prerelease ≠ [] then false
  else pyStrLt a.prerelease b.prerelease

/-- `Version.__eq__`. -/
def Version.beqv (a b : Version) : Bool :=
  a.major = b.major && a.minor = b.minor && a.patch = b.patch
    && a.prerelease = b.prerelease

/-- `Version.__le__`. -/
def Version.le (a b : Version) : Bool := Version.lt a b || Version.beqv a b

/-- `Version.__gt__`. -/
def Version.gt (a b : Version) : Bool := !(Version.le a b)

/-- `Version.__ge__`. -/
def Version.ge (a b : Version) : Bool := !(Version.lt a b)

/-- `parse_version_constraint`: split a constraint into operator and version
part, trying operator prefixes in the source's order. -/
def parse_version_constraint (constraint : List Char) : List Char × List Char :=
  let c := pyStrip constraint
  if c = ['*'] then (['*'], [])
  else if c.take 2 = ['>', '='] then (['>', '='], pyStrip (c.drop 2))
  else if c.take 2 = ['<', '='] then (['<', '='], pyStrip (c.drop 2))
  else if c.take 1 = ['>'] then (['>'], pyStrip (c.drop 1))
  else if c.take 1 = ['<'] then (['<'], pyStrip (c.drop 1))
  else if c.take 1 = ['^'] then (['^'], pyStrip (c.drop 1))
  else if c.take 1 = ['~'] then (['~'], pyStrip (c.drop 1))
  else if c.take 1 = ['='] then (['='], pyStrip (c.drop 1))
  else (['='], c)

/-- `version_satisfies`. -/
def version_satisfies (installed_version constraint : List Char) : Bool :=
  if constraint = ['*'] then true
  else
    match Version.parse installed_version with
    | none => true
    | some installed =>
      let (op, version_str) := parse_version_constraint constraint
      if op = ['*'] then true
      else
        match Version.parse version_str with
        | none => true
        | some required =>
          if op = ['='] then Version.beqv installed required
          else if op = ['>', '='] then Version.ge installed required
          else if op = ['<', '='] then Version.le installed required
          else if op = ['>'] then Version.gt installed required
          else if op = ['<'] then Version.lt installed required
          else if op = ['^'] then
            if Version.lt installed required then false
            else if required.major ≠ 0 then installed.major = required.major
            else if required.minor ≠ 0 then
              installed.major = 0 && installed.minor = required.minor
            else
              installed.major = 0 && installed.minor = 0
                && installed.patch = required.patch
          else if op = ['~'] then
            if Version.lt installed required then false
            else installed.major = required.major && installed.minor = required.minor
          else true

/-! ## Registries and the dependency evaluator -/

/-- Truthiness of an optional string (`None` and `""` are falsy). -/
def truthy : Option (List Char) → Bool
  | none => false
  | some l => l ≠ []

/-- First value bound to a key in an association list (dict lookup). -/
def dictGet {β : Type} (l : List (List Char × β)) (k : List Char) : Option β :=
  match l.find? (fun p => p.1 = k) with
  | some p => some p.2
  | none => none

/-- Split at the last `@`, returning `(before, after)`; `none` when there is
no `@` (`key.rsplit("@", 1)` with a hit vs. no hit). -/
def rsplitAmp : List Char → Option (List Char × List Char)
  | [] => none
  | c :: t =>
    match rsplitAmp t with
    | some (n, m) => some (c :: n, m)
    | none => if c = '@' then some ([], t) else none

/-- `_parse_plugin_key`: name and marketplace of a plugin key. -/
def parsePluginKey (plugin_key : List Char) : List Char × List Char :=
  match rsplitAmp plugin_key with
  | some nm => nm
  | none => (plugin_key, [])

/-- One record of the installed-plugins registry; only the fields the checker
reads (`info.get("version")`, `info.get("installPath", "")`). -/
structure InstallRecord where
  version : Option (List Char) := none
  installPath : Option (List Char) := none
deriving DecidableEq, Repr

/-- The installed-plugins registry: plugin key to list of install records. -/
abbrev InstalledReg := List (List Char × List InstallRecord)

/-- The enabled-plugins settings map: plugin key to enabled flag. -/
abbrev EnabledReg := List (List Char × Bool)

/-- First install record whose key parses to the given name and whose record
list is non-empty (the fallback loop of `_get_installed_plugin_info`). -/
def searchInstalledByName : InstalledReg → List Char → Option InstallRecord
  | [], _ => none
  | (key, installs) :: rest, plugin_name =>
    if (parsePluginKey key).1 = plugin_name then
      match installs with
      | i :: _ => some i
      | [] => searchInstalledByName rest plugin_name
    else searchInstalledByName rest plugin_name

/-- `_get_installed_plugin_info`: exact key match first when a marketplace is
given (and truthy), then a fallback search by name across all marketplaces. -/
def get_installed_plugin_info (installed_plugins : InstalledReg)
    (plugin_name : List Char) (marketplace : Option (List Char)) :
    Option InstallRecord :=
  let exact : Option InstallRecord :=
    match marketplace with
    | some m =>
      if m ≠ [] then (dictGet installed_plugins (plugin_name ++ '@' :: m)).bind List.head?
      else none
    | none => none
  match exact with
  | some i => some i
  | none => searchInstalledByName installed_plugins plugin_name

/-- `_is_plugin_enabled`. -/
def is_plugin_enabled (enabled_plugins : EnabledReg) (plugin_name : List Char)
    (marketplace : Option (List Char)) : Bool :=
  match marketplace with
  | some m =>
    if m ≠ [] then (dictGet enabled_plugins (plugin_name ++ '@' :: m)).getD false
    else enabled_plugins.any (fun p => (parsePluginKey p.1).1 = plugin_name && p.2)
  | none => enabled_plugins.any (fun p => (parsePluginKey p.1).1 = plugin_name && p.2)

/-- `DependencyResult` dataclass. -/
structure DependencyResult where
  plugin : Option (List Char) := none
  command : Option (List Char) := none
  marketplace : Option (List Char) := none
  dependent : List Char := []
  required_version : List Char := []
  installed : Bool := false
  enabled : Bool := false
  installed_version : Option (List Char) := none
  valid : Bool := false
  help : List Char := []
deriving DecidableEq, Repr

/-- Rendering of an optional string inside an f-string (`None` prints as
`None`). -/
def optShow : Option (List Char) → List Char
  | some l => l
  | none => cs "None"

/-- Help text for a version mismatch. -/
def mismatchMsg (installed_version : Option (List Char))
    (required_version : List Char) : List Char :=
  cs "Installed version " ++ optShow installed_version
    ++ cs " does not satisfy required version " ++ required_version

/-- Help text for an installed-but-disabled plugin. -/
def notEnabledMsg (dep_plugin : List Char) : List Char :=
  cs "Plugin " ++ dep_plugin ++ cs " is installed but not enabled"

/-- Help text for a missing plugin, marketplace known. -/
def notInstalledMktMsg (dep_plugin : List Char) (dep_marketplace : Option (List Char)) :
    List Char :=
  cs "Plugin " ++ dep_plugin ++ cs " from " ++ optShow dep_marketplace
    ++ cs " is not installed. Install with: claude plugin install " ++ dep_plugin

/-- Help text for a missing plugin, no marketplace. -/
def notInstalledMsg (dep_plugin : List Char) : List Char :=
  cs "Plugin " ++ dep_plugin
    ++ cs " is not installed. Install with: claude plugin install " ++ dep_plugin

/-- Help text for a missing system command. -/
def cmdMissingMsg (command : List Char) : List Char :=
  cs "Command '" ++ command ++ cs "' is not installed or not in PATH. Please install "
    ++ command ++ cs " to use this plugin."

/-- `_check_plugin_dependency`. -/
def check_plugin_dependency (installed_plugins : InstalledReg)
    (enabled_plugins : EnabledReg) (dep_plugin : List Char)
    (dep_marketplace : Option (List Char)) (required_version dependent : List Char) :
    DependencyResult :=
  let result : DependencyResult :=
    { plugin := some dep_plugin, marketplace := dep_marketplace,
      dependent := dependent, required_version := required_version }
  match get_installed_plugin_info installed_plugins dep_plugin dep_marketplace with
  | some info =>
    let installed_version := info.version
    let enabled := is_plugin_enabled enabled_plugins dep_plugin dep_marketplace
    let valid :=
      if truthy installed_version then
        version_satisfies (installed_version.getD []) required_version
      else true
    let help :=
      if !valid then mismatchMsg installed_version required_version
      else if !enabled then notEnabledMsg dep_plugin
      else []
    { result with
      installed := true
      installed_version := installed_version
      enabled := enabled
      valid := valid
      help := help }
  | none =>
    { result with
      valid := false
      help :=
        if truthy dep_marketplace then notInstalledMktMsg dep_plugin dep_marketplace
        else notInstalledMsg dep_plugin }

/-- `_check_system_dependency`, with the outcome of the system probe
(`_check_system_command`) passed in explicitly: the probe is the IO boundary
(path lookup and subprocess version query), and this function is a pure
function of its `(is_available, version)` result. -/
def check_system_dependency (probe : Bool × Option (List Char))
    (command required_version dependent : List Char) : DependencyResult :=
  let result : DependencyResult :=
    { command := some command, dependent := dependent,
      required_version := required_version }
  let is_available := probe.1
  let version := probe.2
  if is_available then
    let valid :=
      if truthy version && required_version ≠ [] && required_version ≠ ['*'] then
        version_satisfies (version.getD []) required_version
      else true
    let help :=
      if !valid then mismatchMsg version required_version else []
    { result with
      installed := is_available
      installed_version := version
      enabled := is_available
      valid := valid
      help := help }
  else
    { result with
      installed := is_available
      installed_version := version
      enabled := is_available
      valid := false
      help := cmdMissingMsg command }

/-! ## Scope enumeration -/

/-- The known-marketplaces registry entry; only `installLocation` is read. -/
structure MarketplaceRecord where
  installLocation : Option (List Char) := none
deriving DecidableEq, Repr

/-- The known-marketplaces registry. -/
abbrev MarketReg := List (List Char × MarketplaceRecord)

/-- Model of the filesystem walk in `--all` discovery: for a marketplace
install location, the names of the subdirectories of its `plugins/` directory
that are directories and contain a `.claude-plugin` marker.  A missing
location or `plugins/` directory yields `[]`. -/
structure DirWalk where
  pluginDirs : List Char → List (List Char)

/-- `str(plugin_dir)` for a discovered plugin directory. -/
def dirPath (install_location dir_name : List Char) : List Char :=
  install_location ++ cs "/plugins/" ++ dir_name

/-- Requested checking scope. -/
inductive Scope where
  | enabled
  | installed
  | all
deriving DecidableEq, Repr

/-- First installed plugin whose key parses to the given name with a
non-empty record list, as a singleton tuple list (the `break` loop of the
bare-name branch of `_get_plugins_to_check`). -/
def firstTupleByName : InstalledReg → List Char → List (List Char × List Char × List Char)
  | [], _ => []
  | (key, installs) :: rest, name =>
    match installs with
    | i :: _ =>
      if (parsePluginKey key).1 = name then
        [(key, i.installPath.getD [], (parsePluginKey key).2)]
      else firstTupleByName rest name
    | [] => firstTupleByName rest name

/-- The tuples contributed by the installed registry (the loop shared by the
`installed` scope and the first half of the `all` scope). -/
def installedTuples (installed_plugins : InstalledReg) :
    List (List Char × List Char × List Char) :=
  installed_plugins.flatMap (fun p =>
    match p.2 with
    | i :: _ => [(p.1, i.installPath.getD [], (parsePluginKey p.1).2)]
    | [] => [])

/-- The `installed_keys` set accumulated in the `all` scope. -/
def installedKeys (installed_plugins : InstalledReg) : List (List Char) :=
  installed_plugins.filterMap (fun p => if p.2 ≠ [] then some p.1 else none)

/-- The tuples discovered by walking one known marketplace in the `all`
scope. -/
def marketScan (installed_plugins : InstalledReg) (fs : DirWalk)
    (mk : List Char × MarketplaceRecord) :
    List (List Char × List Char × List Char) :=
  let loc := mk.2.installLocation.getD []
  if loc = [] then []
  else
    (fs.pluginDirs loc).flatMap (fun dir_name =>
      if dir_name ++ '@' :: mk.1 ∈ installedKeys installed_plugins then []
      else [(dir_name ++ '@' :: mk.1, dirPath loc dir_name, mk.1)])

/-- `_get_plugins_to_check`: the list of `(plugin_key, install_path,
marketplace)` tuples to evaluate. -/
def get_plugins_to_check (installed_plugins : InstalledReg)
    (enabled_plugins : EnabledReg) (known_marketplaces : MarketReg)
    (fs : DirWalk) (scope : Scope) (specific_plugin : Option (List Char)) :
    List (List Char × List Char × List Char) :=
  if truthy specific_plugin then
    let sp := specific_plugin.getD []
    let nm := parsePluginKey sp
    if nm.2 ≠ [] then
      match get_installed_plugin_info installed_plugins nm.1 (some nm.2) with
      | some info => [(sp, info.installPath.getD [], nm.2)]
      | none => []
    else firstTupleByName installed_plugins nm.1
  else
    match scope with
    | .enabled =>
      enabled_plugins.flatMap (fun p =>
        if p.2 then
          let nm := parsePluginKey p.1
          match get_installed_plugin_info installed_plugins nm.1 (some nm.2) with
          | some info => [(p.1, info.installPath.getD [], nm.2)]
          | none => []
        else [])
    | .installed => installedTuples installed_plugins
    | .all =>
      installedTuples installed_plugins
        ++ known_marketplaces.flatMap (marketScan installed_plugins fs)

/-! ## Result aggregation and exit status -/

/-- `CheckResult` dataclass. -/
structure CheckResult where
  checked_scope : Scope := .enabled
  checked_plugin : Option (List Char) := none
  dependencies : List DependencyResult := []
  optional_dependencies : List DependencyResult := []
  system_dependencies : List DependencyResult := []
  optional_system_dependencies : List DependencyResult := []
deriving DecidableEq, Repr

/-- The exit status computed at the end of `main`. -/
def exit_code (result : CheckResult) : Nat :=
  let has_invalid := result.dependencies.any (fun d => !d.valid)
  let has_invalid_sys := result.system_dependencies.any (fun d => !d.valid)
  if has_invalid || has_invalid_sys then 1 else 0

example :
    check_plugin_dependency [] [] (cs "bar") none (cs ">=2.0.0") (cs "foo@mA")
      = { plugin := some (cs "bar"), marketplace := none, dependent := cs "foo@mA",
          required_version := cs ">=2.0.0", valid := false,
          help := notInstalledMsg (cs "bar") } := by decide

example :
    (check_plugin_dependency
        [(cs "bar@mA", [{ version := some (cs "1.5.0"), installPath := some (cs "/p") }])]
        [(cs "bar@mA", true)]
        (cs "bar") (some (cs "mA")) (cs ">=2.0.0") (cs "foo@mA")).valid = false := by
  decide

example :
    (get_plugins_to_check
        [(cs "bar@other", [{ version := some (cs "1.0.0"), installPath := some (cs "/p") }])]
        [] [] ⟨fun _ => []⟩ .enabled (some (cs "bar@mkt")))
      = [(cs "bar@mkt", cs "/p", cs "mkt")] := by decide

example : Version.parse (cs "1.2.3-beta+build5")
    = some ⟨1, 2, 3, cs "beta", cs "build5"⟩ := by decide

example : Version.parse (cs "v1.2.3") = some ⟨1, 2, 3, [], []⟩ := by decide

example : Version.parse (cs "abc123def456") = none := by decide

example : Version.parse (cs "  1.2  ") = some ⟨1, 2, 0, [], []⟩ := by decide

example : Version.parse (cs "1.2.3.4") = none := by decide

example : version_satisfies (cs "1.9.9") (cs "^1.2.3") = true := by decide

example : version_satisfies (cs "2.0.0") (cs "^1.2.3") = false := by decide

example : version_satisfies (cs "0.2.9") (cs "^0.2.3") = true := by decide

example : version_satisfies (cs "0.3.0") (cs "^0.2.3") = false := by decide

example : version_satisfies (cs "1.2.9") (cs "~1.2.3") = true := by decide

example : version_satisfies (cs "1.3.0") (cs "~1.2.3") = false := by decide

example : version_satisfies (cs "abc123def456") (cs ">=1.0.0") = true := by decide

example : version_satisfies [] (cs "*") = true := by decide

example : Version.toStr ⟨1, 2, 3, cs "beta", cs "build5"⟩ = cs "1.2.3-beta+build5" := by
  decide

/-! ## Whitespace-stripping lemmas -/

theorem dropWhile_dropWhile {α : Type} (p : α → Bool) (l : List α) :
    (l.dropWhile p).dropWhile p = l.dropWhile p := by
  induction l with
  | nil => rfl
  | cons a t ih =>
    cases h : p a <;> simp [List.dropWhile_cons, h, ih]

theorem rstripWs_idem (l : List Char) : rstripWs (rstripWs l) = rstripWs l := by
  unfold rstripWs
  rw [List.reverse_reverse, dropWhile_dropWhile]

theorem rstripWs_cons_nonspace {c : Char} (t : List Char) (hc : isPySpace c = false) :
    rstripWs (c :: t) = c :: rstripWs t := by
  unfold rstripWs
  rw [List.reverse_cons, List.dropWhile_append]
  by_cases h : (t.reverse.dropWhile isPySpace).isEmpty
  · rw [if_pos h]
    rw [List.isEmpty_iff] at h
    simp [List.dropWhile_cons, hc, h]
  · rw [if_neg h, List.reverse_append]
    simp

theorem lstripWs_cons_nonspace {c : Char} (t : List Char) (hc : isPySpace c = false) :
    lstripWs (c :: t) = c :: t := by
  simp [lstripWs, List.dropWhile_cons, hc]

theorem pyStrip_cons_nonspace {c : Char} (t : List Char) (hc : isPySpace c = false) :
    pyStrip (c :: t) = c :: rstripWs t := by
  rw [pyStrip, rstripWs_cons_nonspace t hc, lstripWs_cons_nonspace _ hc]

theorem pyStrip_rstripWs (l : List Char) : pyStrip (rstripWs l) = pyStrip l := by
  rw [pyStrip, pyStrip, rstripWs_idem]

theorem head?_dropWhile_false {α : Type} {p : α → Bool} {l : List α} {c : α}
    (h : (l.dropWhile p).head? = some c) : p c = false := by
  induction l with
  | nil => simp at h
  | cons a t ih =>
    rw [List.dropWhile_cons] at h
    cases hp : p a
    · rw [hp] at h
      simp at h
      exact h ▸ hp
    · rw [hp] at h
      exact ih (by simpa using h)

theorem dropWhile_eq_self_of_head? {α : Type} {p : α → Bool} {l : List α}
    (h : ∀ c, l.head? = some c → p c = false) : l.dropWhile p = l := by
  cases l with
  | nil => rfl
  | cons a t => simp [List.dropWhile_cons, h a rfl]

theorem rstrip_lstrip_rstrip (l : List Char) :
    rstripWs (lstripWs (rstripWs l)) = lstripWs (rstripWs l) := by
  obtain ⟨w, hw⟩ : lstripWs (rstripWs l) <:+ rstripWs l := List.dropWhile_suffix _
  have hyrev : (rstripWs l).reverse = l.reverse.dropWhile isPySpace := by
    rw [rstripWs, List.reverse_reverse]
  rw [rstripWs, dropWhile_eq_self_of_head?, List.reverse_reverse]
  intro c hc
  apply head?_dropWhile_false (p := isPySpace) (l := l.reverse)
  rw [← hyrev, ← hw, List.reverse_append, List.head?_append, hc]
  rfl

theorem pyStrip_idem (l : List Char) : pyStrip (pyStrip l) = pyStrip l := by
  show lstripWs (rstripWs (lstripWs (rstripWs l))) = pyStrip l
  rw [rstrip_lstrip_rstrip, pyStrip, lstripWs, lstripWs, dropWhile_dropWhile]

theorem matchSemver_nil : matchSemver [] = none := rfl

/-- `Version.parse` is invariant under pre-stripping its argument. -/
theorem parse_pyStrip (l : List Char) : Version.parse (pyStrip l) = Version.parse l := by
  by_cases h0 : l = []
  · subst h0; rfl
  · by_cases h1 : pyStrip l = []
    · rw [h1]
      show none = Version.parse l
      rw [Version.parse, if_neg h0, h1]
      simp [matchSemver_nil, isHex12]
    · rw [Version.parse, if_neg h1, Version.parse, if_neg h0, pyStrip_idem]

/-- Stripping leading `v` characters commutes with parsing when the argument
has no leading whitespace. -/
theorem parse_drop_leading_v (s : List Char)
    (h : ∀ c, s.head? = some c → isPySpace c = false) :
    Version.parse ('v' :: s) = Version.parse s := by
  cases s with
  | nil => decide
  | cons c t =>
    have hc : isPySpace c = false := h c rfl
    have hcl : (pyStrip ('v' :: c :: t)).dropWhile (· = 'v')
        = (pyStrip (c :: t)).dropWhile (· = 'v') := by
      rw [pyStrip_cons_nonspace _ (by decide), rstripWs_cons_nonspace t hc,
          pyStrip_cons_nonspace _ hc, List.dropWhile_cons]
      simp
    rw [Version.parse, Version.parse,
        if_neg (show ¬('v' :: c :: t = []) by simp),
        if_neg (show ¬(c :: t = []) by simp), hcl]

/-! ## Claim theorems: the version model -/

/-- C9: `parse("1.2.3-beta+build5")` yields exactly
`(major 1, minor 2, patch 3, prerelease "beta", build "build5")`, and
rendering that `Version` back to a string gives `"1.2.3-beta+build5"`. -/
theorem parse_roundtrip_beta_build :
    Version.parse (cs "1.2.3-beta+build5") = some ⟨1, 2, 3, cs "beta", cs "build5"⟩ ∧
    Version.toStr ⟨1, 2, 3, cs "beta", cs "build5"⟩ = cs "1.2.3-beta+build5" := by
  decide

/-- C10 counterexample: `parse` strips whitespace before stripping leading
`v` characters, so prefixing `v` to a string with leading whitespace changes
the parse (`"v 1.2.3"` fails while `" 1.2.3"` succeeds); the claimed identity
`parse("v" + s) = parse(s)` fails at `s = " 1.2.3"`. -/
theorem parse_v_prefix_counterexample :
    Version.parse ('v' :: cs " 1.2.3") ≠ Version.parse (cs " 1.2.3") := by decide

/-- C10 (amended): `Version.parse` strips surrounding whitespace and then all
leading `v` characters, so `parse("v" + s) = parse(s)` for every string `s`
with no leading whitespace; `"v1.2.3"` parses to version 1.2.3 despite not
matching the stated grammar, and the 12-hex commit-hash rejection is applied
after the stripping (`"v111111111111"` is rejected rather than parsed as a
major version). -/
theorem parse_v_stripping :
    (∀ s : List Char, (∀ c, s.head? = some c → isPySpace c = false) →
        Version.parse ('v' :: s) = Version.parse s) ∧
    Version.parse (cs "v1.2.3") = some ⟨1, 2, 3, [], []⟩ ∧
    Version.parse (cs "v111111111111") = none ∧
    Version.parse (cs "111111111111") = none :=
  ⟨parse_drop_leading_v, by decide, by decide, by decide⟩

/-- C10 witness: the amended identity applied at `s = "1.2.3"`. -/
theorem parse_v_stripping_witness :
    Version.parse ('v' :: cs "1.2.3") = Version.parse (cs "1.2.3") :=
  parse_v_stripping.1 (cs "1.2.3") (by decide)

/-- C2: `version_satisfies` returns true whenever the constraint is the
literal `*`, the installed string does not parse as a version, or the version
part of the constraint does not parse as a version; being a total function
into `Bool`, it never raises. -/
theorem version_satisfies_permissive (installed constraint : List Char)
    (h : constraint = ['*'] ∨ Version.parse installed = none ∨
        Version.parse (parse_version_constraint constraint).2 = none) :
    version_satisfies installed constraint = true := by
  unfold version_satisfies
  by_cases hstar : constraint = ['*']
  · rw [if_pos hstar]
  · rw [if_neg hstar]
    obtain ⟨op, vstr, hq⟩ :
        ∃ op vstr, parse_version_constraint constraint = (op, vstr) :=
      ⟨_, _, rfl⟩
    rcases h with h | h | h
    · exact absurd h hstar
    · rw [h]
    · rw [hq] at h
      cases hp : Version.parse installed with
      | none => rfl
      | some inst =>
        rw [hq]
        by_cases hop : op = ['*']
        · simp [hop]
        · simp only at h
          simp [hop, h]

/-- A caret constraint splits into the `^` operator and the stripped rest. -/
theorem pvc_caret (sR : List Char) :
    parse_version_constraint ('^' :: sR) = (['^'], pyStrip (rstripWs sR)) := by
  unfold parse_version_constraint
  rw [pyStrip_cons_nonspace _ (by decide)]
  simp

/-- C1: for parseable installed and required versions, a caret constraint
`^R` is satisfied by `v` exactly when `v >= R` and the leftmost nonzero
component of `R` is frozen: for `R.major != 0` the major must match; for
`R.major == 0, R.minor != 0` major must be `0` and minor match; otherwise
major and minor must be `0` and patch match. -/
theorem caret_satisfies_characterization (sv sR : List Char) (v R : Version)
    (hv : Version.parse sv = some v) (hR : Version.parse sR = some R) :
    (version_satisfies sv ('^' :: sR) = true ↔
      (Version.ge v R = true ∧
        (if R.major ≠ 0 then v.major = R.major
         else if R.minor ≠ 0 then v.major = 0 ∧ v.minor = R.minor
         else v.major = 0 ∧ v.minor = 0 ∧ v.patch = R.patch))) := by
  have hvstr : Version.parse (pyStrip (rstripWs sR)) = some R := by
    rw [pyStrip_rstripWs, parse_pyStrip]; exact hR
  unfold version_satisfies
  rw [if_neg (show ¬('^' :: sR = ['*']) by simp), hv, pvc_caret]
  simp only [hvstr]
  cases hlt : Version.lt v R with
  | true =>
    have hge : Version.ge v R = false := by rw [Version.ge, hlt]; rfl
    simp [hge, hlt]
  | false =>
    have hge : Version.ge v R = true := by rw [Version.ge, hlt]; rfl
    simp only [hge, hlt, true_and]
    by_cases h1 : R.major = 0 <;> by_cases h2 : R.minor = 0 <;>
      simp [h1, h2, and_assoc]

/-- C1 witness: the characterization applied at the spec's example
`satisfies("1.9.9", "^1.2.3") == true`. -/
theorem caret_satisfies_characterization_witness :
    version_satisfies (cs "1.9.9") ('^' :: cs "1.2.3") = true :=
  (caret_satisfies_characterization (cs "1.9.9") (cs "1.2.3")
      ⟨1, 9, 9, [], []⟩ ⟨1, 2, 3, [], []⟩ (by decide) (by decide)).mpr (by decide)

/-- C2 witness: a commit-SHA installed version, the literal `*` constraint,
and a constraint with an unparsable version part all satisfy. -/
theorem version_satisfies_permissive_witness :
    version_satisfies (cs "abc123def456") (cs ">=1.0.0") = true ∧
    version_satisfies [] (cs "*") = true ∧
    version_satisfies (cs "1.0.0") (cs "^junk") = true :=
  ⟨version_satisfies_permissive _ _ (Or.inr (Or.inl (by decide))),
   version_satisfies_permissive _ _ (Or.inl (by decide)),
   version_satisfies_permissive _ _ (Or.inr (Or.inr (by decide)))⟩

/-! ## Corner-case lemmas for `version_satisfies` -/

theorem version_satisfies_nil_left (c : List Char) :
    version_satisfies [] c = true := by
  unfold version_satisfies
  by_cases h : c = ['*']
  · rw [if_pos h]
  · rw [if_neg h]; rfl

theorem version_satisfies_star (v : List Char) : version_satisfies v ['*'] = true := rfl

theorem version_satisfies_nil_constraint (v : List Char) :
    version_satisfies v [] = true := by
  unfold version_satisfies
  rw [if_neg (by simp)]
  cases hp : Version.parse v with
  | none => rfl
  | some i => rfl

/-! ## Claim theorem: exit status -/

/-- C3: the process exit status is `0` exactly when no entry of the required
plugin bucket (`dependencies`) and no entry of the required system bucket
(`systemDependencies`) has `valid = false`; it is always `0` or `1`, and the
optional buckets never affect it. -/
theorem exit_status_characterization (r : CheckResult)
    (o1 o2 : List DependencyResult) :
    (exit_code r = 0 ↔
      (r.dependencies.all (fun d => d.valid) = true ∧
       r.system_dependencies.all (fun d => d.valid) = true)) ∧
    (exit_code r = 0 ∨ exit_code r = 1) ∧
    exit_code { r with optional_dependencies := o1, optional_system_dependencies := o2 }
      = exit_code r := by
  refine ⟨?_, ?_, rfl⟩
  · simp only [exit_code]
    rw [List.all_eq_not_any_not, List.all_eq_not_any_not]
    split_ifs with h
    · simp only [Bool.or_eq_true] at h
      constructor
      · intro h0; exact absurd h0 (by decide)
      · rintro ⟨h1, h2⟩
        rcases h with h | h <;> simp_all
    · simp only [Bool.or_eq_true, not_or, Bool.not_eq_true] at h
      simp [h.1, h.2]
  · simp only [exit_code]
    split_ifs <;> simp

/-! ## Ordering lemmas -/

theorem lex_cons_cons_iff {a b : Char} {s t : List Char} :
    List.Lex (· < ·) (a :: s) (b :: t) ↔ a < b ∨ (a = b ∧ List.Lex (· < ·) s t) := by
  constructor
  · intro h
    cases h with
    | cons h => exact Or.inr ⟨rfl, h⟩
    | rel h => exact Or.inl h
  · rintro (h | ⟨rfl, h⟩)
    · exact List.Lex.rel h
    · exact List.Lex.cons h

theorem char_eq_of_toNat_eq {a b : Char} (h : a.toNat = b.toNat) : a = b :=
  Char.ext (UInt32.ext h)

/-- `pyStrLt` is the lexicographic order on code points. -/
theorem pyStrLt_iff_lex (s t : List Char) :
    pyStrLt s t = true ↔ List.Lex (· < ·) s t := by
  induction s generalizing t with
  | nil =>
    cases t with
    | nil =>
      simp only [pyStrLt]
      constructor
      · intro h; exact absurd h (by simp)
      · intro h; cases h
    | cons b tb =>
      simp only [pyStrLt, true_iff]
      exact List.Lex.nil
  | cons a s ih =>
    cases t with
    | nil =>
      simp only [pyStrLt]
      constructor
      · intro h; exact absurd h (by simp)
      · intro h; cases h
    | cons b t =>
      rw [lex_cons_cons_iff]
      rcases Nat.lt_trichotomy a.toNat b.toNat with h | h | h
      · have hab : a < b := h
        simp [pyStrLt, h, hab]
      · have hab : a = b := char_eq_of_toNat_eq h
        subst hab
        simp [pyStrLt, lt_irrefl, ih, Char.lt_def]
      · have h1 : ¬a.toNat < b.toNat := by omega
        have h2 : ¬a < b := h1
        have h3 : a ≠ b := fun he => by
          subst he; exact absurd rfl (Nat.ne_of_lt h).symm
        simp [pyStrLt, h1, h, h2, h3]

theorem pyStrLt_trichotomy (s t : List Char) :
    pyStrLt s t = true ∨ s = t ∨ pyStrLt t s = true := by
  induction s generalizing t with
  | nil =>
    cases t with
    | nil => exact Or.inr (Or.inl rfl)
    | cons b tb => exact Or.inl rfl
  | cons a s ih =>
    cases t with
    | nil => exact Or.inr (Or.inr rfl)
    | cons b t =>
      rcases Nat.lt_trichotomy a.toNat b.toNat with h | h | h
      · left; simp [pyStrLt, h]
      · have hab : a = b := char_eq_of_toNat_eq h
        subst hab
        rcases ih t with h2 | h2 | h2
        · left; simp [pyStrLt, h2]
        · right; left; rw [h2]
        · right; right; simp [pyStrLt, h2]
      · have h1 : ¬a.toNat < b.toNat := by omega
        right; right; simp [pyStrLt, h, h1]

theorem version_beqv_iff (a b : Version) :
    Version.beqv a b = true ↔
      a.major = b.major ∧ a.minor = b.minor ∧ a.patch = b.patch ∧
        a.prerelease = b.prerelease := by
  simp [Version.beqv, and_assoc]

theorem version_lt_trichotomy (a b : Version) :
    Version.lt a b = true ∨ Version.beqv a b = true ∨ Version.lt b a = true := by
  by_cases ht : (a.major, a.minor, a.patch) = (b.major, b.minor, b.patch)
  · have h1 : a.major = b.major := congrArg (fun p => p.1) ht
    have h2 : a.minor = b.minor := congrArg (fun p => p.2.1) ht
    have h3 : a.patch = b.patch := congrArg (fun p => p.2.2) ht
    by_cases hA : a.prerelease = [] <;> by_cases hB : b.prerelease = []
    · right; left
      simp [Version.beqv, h1, h2, h3, hA, hB]
    · right; right
      simp [Version.lt, ht.symm, hA, hB]
    · left
      simp [Version.lt, ht, hA, hB]
    · rcases pyStrLt_trichotomy a.prerelease b.prerelease with h | h | h
      · left; simp [Version.lt, ht, hA, hB, h]
      · right; left; simp [Version.beqv, h1, h2, h3, h]
      · right; right; simp [Version.lt, ht.symm, hA, hB, h]
  · rcases Nat.lt_trichotomy a.major b.major with h | h | h
    · left; simp [Version.lt, tripleLt, ht, h, Nat.ne_of_lt h]
    · rcases Nat.lt_trichotomy a.minor b.minor with h' | h' | h'
      · left; simp [Version.lt, tripleLt, ht, h, h', Nat.ne_of_lt h']
      · rcases Nat.lt_trichotomy a.patch b.patch with h'' | h'' | h''
        · left; simp [Version.lt, tripleLt, ht, h, h', h'', Nat.ne_of_lt h'']
        · exact absurd (by rw [h, h', h'']) ht
        · right; right
          have ht' : ¬(b.major, b.minor, b.patch) = (a.major, a.minor, a.patch) :=
            fun he => ht he.symm
          simp [Version.lt, tripleLt, ht', h.symm, h'.symm, h'', Nat.ne_of_lt h'']
      · right; right
        have ht' : ¬(b.major, b.minor, b.patch) = (a.major, a.minor, a.patch) :=
          fun he => ht he.symm
        simp [Version.lt, tripleLt, ht', h.symm, h', Nat.ne_of_lt h']
    · right; right
      have ht' : ¬(b.major, b.minor, b.patch) = (a.major, a.minor, a.patch) :=
        fun he => ht he.symm
      simp [Version.lt, tripleLt, ht', h, Nat.ne_of_lt h]

theorem version_lt_iff (a b : Version) :
    Version.lt a b = true ↔
      (a.major < b.major ∨ (a.major = b.major ∧ (a.minor < b.minor ∨
          (a.minor = b.minor ∧ a.patch < b.patch)))) ∨
        (a.major = b.major ∧ a.minor = b.minor ∧ a.patch = b.patch ∧
          ((a.prerelease ≠ [] ∧ b.prerelease = []) ∨
           (a.prerelease ≠ [] ∧ b.prerelease ≠ [] ∧
             List.Lex (· < ·) a.prerelease b.prerelease))) := by
  by_cases ht : (a.major, a.minor, a.patch) = (b.major, b.minor, b.patch)
  · have h1 : a.major = b.major := congrArg (fun p => p.1) ht
    have h2 : a.minor = b.minor := congrArg (fun p => p.2.1) ht
    have h3 : a.patch = b.patch := congrArg (fun p => p.2.2) ht
    rw [Version.lt, if_neg (by simp [ht])]
    by_cases hA : a.prerelease = [] <;> by_cases hB : b.prerelease = [] <;>
      simp [hA, hB, h1, h2, h3, pyStrLt_iff_lex, lt_irrefl]
  · have hne : ¬(a.major = b.major ∧ a.minor = b.minor ∧ a.patch = b.patch ∧
        ((a.prerelease ≠ [] ∧ b.prerelease = []) ∨
         (a.prerelease ≠ [] ∧ b.prerelease ≠ [] ∧
           List.Lex (· < ·) a.prerelease b.prerelease))) := by
      rintro ⟨e1, e2, e3, _⟩
      exact ht (by rw [e1, e2, e3])
    rw [Version.lt, if_pos ht]
    simp only [hne, or_false]
    simp [tripleLt]

/-- C7: version ordering is total over `(major, minor, patch, prerelease)`:
`<` compares `(major, minor, patch)` lexicographically, then puts a
non-empty prerelease strictly below an empty one and compares two non-empty
prereleases as lexicographic string comparison; `==` is equality of that
tuple; `<=`, `>`, `>=` derive from them; any two versions are related by
`<`, `==` or inverted `<`; and build metadata never affects any of the five
comparisons (versions differing only in build are equal). -/
theorem version_ordering_total (a b : Version) (x y : List Char) :
    (Version.beqv a b = true ↔
        a.major = b.major ∧ a.minor = b.minor ∧ a.patch = b.patch ∧
          a.prerelease = b.prerelease) ∧
    (Version.lt a b = true ↔
        (a.major < b.major ∨ (a.major = b.major ∧ (a.minor < b.minor ∨
            (a.minor = b.minor ∧ a.patch < b.patch)))) ∨
          (a.major = b.major ∧ a.minor = b.minor ∧ a.patch = b.patch ∧
            ((a.prerelease ≠ [] ∧ b.prerelease = []) ∨
             (a.prerelease ≠ [] ∧ b.prerelease ≠ [] ∧
               List.Lex (· < ·) a.prerelease b.prerelease)))) ∧
    Version.le a b = (Version.lt a b || Version.beqv a b) ∧
    Version.gt a b = !(Version.le a b) ∧
    Version.ge a b = !(Version.lt a b) ∧
    (Version.lt a b = true ∨ Version.beqv a b = true ∨ Version.lt b a = true) ∧
    Version.lt { a with build := x } { b with build := y } = Version.lt a b ∧
    Version.le { a with build := x } { b with build := y } = Version.le a b ∧
    Version.gt { a with build := x } { b with build := y } = Version.gt a b ∧
    Version.ge { a with build := x } { b with build := y } = Version.ge a b ∧
    Version.beqv { a with build := x } { b with build := y } = Version.beqv a b ∧
    Version.beqv { a with build := x } { a with build := y } = true :=
  ⟨version_beqv_iff a b, version_lt_iff a b, rfl, rfl, rfl,
   version_lt_trichotomy a b, rfl, rfl, rfl, rfl, rfl, by simp [Version.beqv]⟩

/-! ## Claim theorems: the dependency evaluator -/

/-- C5: a plugin-dependency check reports a missing dependency as
`installed = false, valid = false` with an install-instruction help text;
for an installed dependency `valid` is computed from version satisfaction
alone — `version_satisfies` of the recorded installed version, or `true`
when none is recorded — independent of the enabled flag and of the whole
enabled registry, with `enabled` reported separately and an
installed-but-not-enabled help message when applicable. -/
theorem plugin_dependency_check_characterization
    (installed_plugins : InstalledReg) (enabled_plugins enabled_plugins' : EnabledReg)
    (dep_plugin : List Char) (dep_marketplace : Option (List Char))
    (required_version dependent : List Char) :
    (get_installed_plugin_info installed_plugins dep_plugin dep_marketplace = none →
      (check_plugin_dependency installed_plugins enabled_plugins dep_plugin
          dep_marketplace required_version dependent).installed = false ∧
      (check_plugin_dependency installed_plugins enabled_plugins dep_plugin
          dep_marketplace required_version dependent).valid = false ∧
      (check_plugin_dependency installed_plugins enabled_plugins dep_plugin
          dep_marketplace required_version dependent).help
        = (if truthy dep_marketplace then notInstalledMktMsg dep_plugin dep_marketplace
           else notInstalledMsg dep_plugin)) ∧
    (∀ info,
      get_installed_plugin_info installed_plugins dep_plugin dep_marketplace
          = some info →
      (check_plugin_dependency installed_plugins enabled_plugins dep_plugin
          dep_marketplace required_version dependent).installed = true ∧
      (check_plugin_dependency installed_plugins enabled_plugins dep_plugin
          dep_marketplace required_version dependent).enabled
        = is_plugin_enabled enabled_plugins dep_plugin dep_marketplace ∧
      (check_plugin_dependency installed_plugins enabled_plugins dep_plugin
          dep_marketplace required_version dependent).installed_version = info.version ∧
      (check_plugin_dependency installed_plugins enabled_plugins dep_plugin
          dep_marketplace required_version dependent).valid
        = (match info.version with
           | some s => version_satisfies s required_version
           | none => true) ∧
      ((check_plugin_dependency installed_plugins enabled_plugins dep_plugin
          dep_marketplace required_version dependent).valid = true →
        (check_plugin_dependency installed_plugins enabled_plugins dep_plugin
            dep_marketplace required_version dependent).enabled = false →
        (check_plugin_dependency installed_plugins enabled_plugins dep_plugin
            dep_marketplace required_version dependent).help
          = notEnabledMsg dep_plugin) ∧
      ((check_plugin_dependency installed_plugins enabled_plugins dep_plugin
          dep_marketplace required_version dependent).valid = false →
        (check_plugin_dependency installed_plugins enabled_plugins dep_plugin
            dep_marketplace required_version dependent).help
          = mismatchMsg info.version required_version) ∧
      (check_plugin_dependency installed_plugins enabled_plugins' dep_plugin
          dep_marketplace required_version dependent).valid
        = (check_plugin_dependency installed_plugins enabled_plugins dep_plugin
            dep_marketplace required_version dependent).valid) := by
  unfold check_plugin_dependency
  cases hinfo : get_installed_plugin_info installed_plugins dep_plugin dep_marketplace with
  | none =>
    refine ⟨fun _ => ⟨rfl, rfl, rfl⟩, fun info h => absurd h (by simp)⟩
  | some info =>
    refine ⟨fun h => absurd h (by simp), fun info' h => ?_⟩
    have he : info' = info := (Option.some.inj h).symm
    subst he
    have hvalid :
        (if truthy info'.version then
            version_satisfies (info'.version.getD []) required_version
          else true)
        = (match info'.version with
           | some s => version_satisfies s required_version
           | none => true) := by
      cases hv : info'.version with
      | none => rfl
      | some s =>
        cases s with
        | nil => simp [truthy, version_satisfies_nil_left]
        | cons c t => simp [truthy]
    refine ⟨rfl, rfl, rfl, hvalid, ?_, ?_, rfl⟩
    · intro hv hen
      dsimp only at hv hen ⊢
      rw [hv, hen]
      rfl
    · intro hv
      dsimp only at hv ⊢
      rw [hv]
      rfl

/-- C5 witness: a missing dependency is invalid; an installed dependency's
validity equals version satisfaction on its recorded version. -/
theorem plugin_dependency_check_characterization_witness :
    (check_plugin_dependency [] [] (cs "bar") none (cs ">=2.0.0") (cs "foo@mA")).valid
      = false ∧
    (check_plugin_dependency
        [(cs "bar@mA", [⟨some (cs "1.5.0"), some (cs "/p")⟩])] []
        (cs "bar") (some (cs "mA")) (cs ">=2.0.0") (cs "foo@mA")).valid
      = version_satisfies (cs "1.5.0") (cs ">=2.0.0") :=
  ⟨((plugin_dependency_check_characterization [] [] []
      (cs "bar") none (cs ">=2.0.0") (cs "foo@mA")).1 (by decide)).2.1,
   (((plugin_dependency_check_characterization
      [(cs "bar@mA", [⟨some (cs "1.5.0"), some (cs "/p")⟩])] [] []
      (cs "bar") (some (cs "mA")) (cs ">=2.0.0") (cs "foo@mA")).2
      ⟨some (cs "1.5.0"), some (cs "/p")⟩ (by decide)).2.2.2.1 :)⟩

/-- C6: for a system-command dependency, `enabled` always equals
`installed`; a missing command yields `installed = false, valid = false`
with an install help text; an existing command with no extracted version is
valid regardless of the (wildcard or non-wildcard) constraint; and an
existing command with an extracted version is valid exactly when
`version_satisfies` accepts that version against the constraint. -/
theorem system_dependency_check_characterization
    (is_available : Bool) (version : Option (List Char))
    (command required_version dependent : List Char) :
    (check_system_dependency (is_available, version) command
        required_version dependent).enabled
      = (check_system_dependency (is_available, version) command
          required_version dependent).installed ∧
    (check_system_dependency (is_available, version) command
        required_version dependent).installed = is_available ∧
    (check_system_dependency (is_available, version) command
        required_version dependent).installed_version = version ∧
    (is_available = false →
      (check_system_dependency (is_available, version) command
          required_version dependent).valid = false ∧
      (check_system_dependency (is_available, version) command
          required_version dependent).help = cmdMissingMsg command) ∧
    (is_available = true → version = none →
      (check_system_dependency (is_available, version) command
          required_version dependent).valid = true) ∧
    (is_available = true → ∀ v, version = some v →
      (check_system_dependency (is_available, version) command
          required_version dependent).valid
        = version_satisfies v required_version) := by
  unfold check_system_dependency
  cases is_available with
  | false =>
    exact ⟨rfl, rfl, rfl, fun _ => ⟨rfl, rfl⟩,
      fun h => absurd h (by simp), fun h => absurd h (by simp)⟩
  | true =>
    refine ⟨rfl, rfl, rfl, fun h => absurd h (by simp), fun _ hv => ?_,
      fun _ v hv => ?_⟩
    · subst hv; rfl
    · subst hv
      dsimp only
      cases v with
      | nil => simp [truthy, version_satisfies_nil_left]
      | cons c t =>
        by_cases h2 : required_version = []
        · subst h2
          simp [truthy, version_satisfies_nil_constraint]
        · by_cases h3 : required_version = ['*']
          · subst h3
            simp [truthy, version_satisfies_star]
          · simp [truthy, h2, h3]

/-- C6 witness: an available command with no extracted version is valid
against a non-wildcard constraint; with an extracted version validity tracks
`version_satisfies`; a missing command is invalid. -/
theorem system_dependency_check_characterization_witness :
    (check_system_dependency (true, none) (cs "gh") (cs ">=2.0.0")
        (cs "foo@mA")).valid = true ∧
    (check_system_dependency (true, some (cs "1.5.0")) (cs "gh") (cs ">=2.0.0")
        (cs "foo@mA")).valid = version_satisfies (cs "1.5.0") (cs ">=2.0.0") ∧
    (check_system_dependency (false, none) (cs "gh") (cs ">=2.0.0")
        (cs "foo@mA")).valid = false :=
  ⟨(system_dependency_check_characterization true none _ _ _).2.2.2.2.1 rfl rfl,
   (system_dependency_check_characterization true (some (cs "1.5.0")) _ _ _).2.2.2.2.2
      rfl _ rfl,
   ((system_dependency_check_characterization false none _ _ _).2.2.2.1 rfl).1⟩

/-- `firstTupleByName` yields at most one tuple. -/
theorem firstTupleByName_length (reg : InstalledReg) (n : List Char) :
    (firstTupleByName reg n).length ≤ 1 := by
  induction reg with
  | nil => simp [firstTupleByName]
  | cons p rest ih =>
    obtain ⟨key, installs⟩ := p
    cases installs with
    | nil => simpa [firstTupleByName] using ih
    | cons i is =>
      by_cases h : (parsePluginKey key).1 = n <;>
        simp [firstTupleByName, h, ih]

/-- C4 counterexample: with only `bar@other` installed, single-plugin mode
for `bar@mkt` finds no exact key match yet still produces a tuple, resolved
through the by-name fallback of `_get_installed_plugin_info`; the claim that
resolution happens only via exact plugin-key match is false. -/
theorem specific_mode_fallback_counterexample :
    dictGet [(cs "bar@other", [(⟨some (cs "1.0.0"), some (cs "/p")⟩ : InstallRecord)])]
        (cs "bar@mkt") = none ∧
    get_plugins_to_check
        [(cs "bar@other", [⟨some (cs "1.0.0"), some (cs "/p")⟩])]
        [] [] ⟨fun _ => []⟩ .enabled (some (cs "bar@mkt"))
      = [(cs "bar@mkt", cs "/p", cs "mkt")] := by decide

/-- `get_installed_plugin_info` with a non-empty marketplace: exact key
lookup first, then the by-name fallback. -/
theorem get_installed_plugin_info_eq (reg : InstalledReg) (n m : List Char)
    (hm : m ≠ []) :
    get_installed_plugin_info reg n (some m)
      = (match (dictGet reg (n ++ '@' :: m)).bind List.head? with
         | some i => some i
         | none => searchInstalledByName reg n) := by
  unfold get_installed_plugin_info
  dsimp only
  rw [if_pos hm]

/-- C4 (amended): in single-plugin mode an input `name@marketplace` is
resolved by exact plugin-key lookup first and then, when the exact key
misses (or maps to an empty record list), by falling back to the first
installed plugin of the same name from any marketplace; a bare name takes
the first installed plugin whose name matches across all marketplaces; in
both cases at most one tuple is produced. -/
theorem specific_mode_resolution
    (installed_plugins : InstalledReg) (enabled_plugins : EnabledReg)
    (known_marketplaces : MarketReg) (fs : DirWalk) (scope : Scope)
    (sp : List Char) (hsp : sp ≠ []) :
    (get_plugins_to_check installed_plugins enabled_plugins known_marketplaces fs
        scope (some sp)
      = (if (parsePluginKey sp).2 ≠ [] then
          (match (dictGet installed_plugins
              ((parsePluginKey sp).1 ++ '@' :: (parsePluginKey sp).2)).bind List.head? with
           | some info => [(sp, info.installPath.getD [], (parsePluginKey sp).2)]
           | none =>
             match searchInstalledByName installed_plugins (parsePluginKey sp).1 with
             | some info => [(sp, info.installPath.getD [], (parsePluginKey sp).2)]
             | none => [])
         else firstTupleByName installed_plugins (parsePluginKey sp).1)) ∧
    (get_plugins_to_check installed_plugins enabled_plugins known_marketplaces fs
        scope (some sp)).length ≤ 1 := by
  have htr : truthy (some sp) = true := by simp [truthy, hsp]
  have heq : get_plugins_to_check installed_plugins enabled_plugins
      known_marketplaces fs scope (some sp)
      = (if (parsePluginKey sp).2 ≠ [] then
          (match (dictGet installed_plugins
              ((parsePluginKey sp).1 ++ '@' :: (parsePluginKey sp).2)).bind List.head? with
           | some info => [(sp, info.installPath.getD [], (parsePluginKey sp).2)]
           | none =>
             match searchInstalledByName installed_plugins (parsePluginKey sp).1 with
             | some info => [(sp, info.installPath.getD [], (parsePluginKey sp).2)]
             | none => [])
         else firstTupleByName installed_plugins (parsePluginKey sp).1) := by
    unfold get_plugins_to_check
    rw [htr, if_pos rfl]
    simp only [Option.getD_some]
    by_cases hm : (parsePluginKey sp).2 ≠ []
    · rw [if_pos hm, if_pos hm,
          get_installed_plugin_info_eq installed_plugins _ _ hm]
      cases hd : (dictGet installed_plugins
          ((parsePluginKey sp).1 ++ '@' :: (parsePluginKey sp).2)).bind List.head? with
      | some i => rfl
      | none =>
        cases hs : searchInstalledByName installed_plugins (parsePluginKey sp).1 with
        | some i => rfl
        | none => rfl
    · rw [if_neg hm, if_neg hm]
  refine ⟨heq, ?_⟩
  rw [heq]
  by_cases hm : (parsePluginKey sp).2 ≠ []
  · rw [if_pos hm]
    cases (dictGet installed_plugins
        ((parsePluginKey sp).1 ++ '@' :: (parsePluginKey sp).2)).bind List.head? with
    | some i => simp
    | none =>
      cases searchInstalledByName installed_plugins (parsePluginKey sp).1 with
      | some i => simp
      | none => simp
  · rw [if_neg hm]
    exact firstTupleByName_length _ _

/-- C4 witness: the amended characterization applied at a concrete registry,
giving at most one tuple for a specific plugin. -/
theorem specific_mode_resolution_witness :
    (get_plugins_to_check [(cs "bar@other", [⟨some (cs "1.0.0"), some (cs "/p")⟩])]
        [] [] ⟨fun _ => []⟩ .installed (some (cs "bar@mkt"))).length ≤ 1 :=
  (specific_mode_resolution _ _ _ _ _ _ (by decide)).2

/-! ## Enumerator key-uniqueness lemmas -/

theorem nodup_of_length_le_one {α : Type} {l : List α} (h : l.length ≤ 1) :
    l.Nodup := by
  cases l with
  | nil => exact List.nodup_nil
  | cons a t =>
    cases t with
    | nil => simp
    | cons b u => simp at h

/-- Every key of a flat-map whose pieces are keyed by their entry's key is
a key of the registry. -/
theorem key_mem_of_mem_flatMap {β γ : Type} {l : List (List Char × β)}
    {f : List Char × β → List (List Char × γ)}
    (hf2 : ∀ x, ∀ t ∈ f x, t.1 = x.1) {k : List Char}
    (hk : k ∈ (l.flatMap f).map Prod.fst) : k ∈ l.map Prod.fst := by
  rcases List.mem_map.mp hk with ⟨t, ht, rfl⟩
  rcases List.mem_flatMap.mp ht with ⟨y, hy, hty⟩
  exact List.mem_map.mpr ⟨y, hy, (hf2 y t hty).symm⟩

/-- Keys of a flat-map that emits at most one tuple per registry entry,
keyed by that entry's key, are distinct when the registry keys are. -/
theorem nodup_keys_flatMap {β γ : Type} (l : List (List Char × β))
    (f : List Char × β → List (List Char × γ))
    (hl : (l.map Prod.fst).Nodup)
    (hf1 : ∀ x, (f x).length ≤ 1)
    (hf2 : ∀ x, ∀ t ∈ f x, t.1 = x.1) :
    ((l.flatMap f).map Prod.fst).Nodup := by
  induction l with
  | nil => simp
  | cons x l ih =>
    rw [List.flatMap_cons, List.map_append]
    rw [List.map_cons] at hl
    rcases List.nodup_cons.mp hl with ⟨hx, hl'⟩
    have hlen : ((f x).map Prod.fst).length ≤ 1 := by
      rw [List.length_map]; exact hf1 x
    refine List.Nodup.append (nodup_of_length_le_one hlen) (ih hl') ?_
    intro k hk1 hk2
    rcases List.mem_map.mp hk1 with ⟨t, ht, rfl⟩
    have hmem : t.1 ∈ l.map Prod.fst :=
      key_mem_of_mem_flatMap hf2 hk2
    exact hx (hf2 x t ht ▸ hmem)

theorem rsplitAmp_eq_none_iff (l : List Char) : rsplitAmp l = none ↔ '@' ∉ l := by
  induction l with
  | nil => simp [rsplitAmp]
  | cons c t ih =>
    rw [rsplitAmp]
    cases ht : rsplitAmp t with
    | some nm =>
      obtain ⟨n, m⟩ := nm
      rw [ht] at ih
      constructor
      · intro h; simp at h
      · intro h
        have hnt : '@' ∉ t := fun hm => h (List.mem_cons_of_mem c hm)
        exact absurd (ih.mpr hnt) (by simp)
    | none =>
      rw [ht] at ih
      by_cases hc : c = '@'
      · subst hc
        simp
      · simp only [if_neg hc]
        constructor
        · intro _ hmem
          rcases List.mem_cons.mp hmem with h | h
          · exact hc h.symm
          · exact ih.mp rfl h
        · intro _; trivial

theorem rsplitAmp_append (n m : List Char) (hm : '@' ∉ m) :
    rsplitAmp (n ++ '@' :: m) = some (n, m) := by
  induction n with
  | nil =>
    rw [List.nil_append, rsplitAmp, (rsplitAmp_eq_none_iff m).mpr hm]
    simp
  | cons c t ih =>
    rw [List.cons_append, rsplitAmp, ih]

/-- `parsePluginKey` recovers the pieces of a key built from an `@`-free
marketplace name. -/
theorem parsePluginKey_append (n m : List Char) (hm : '@' ∉ m) :
    parsePluginKey (n ++ '@' :: m) = (n, m) := by
  rw [parsePluginKey, rsplitAmp_append n m hm]

theorem flatMap_sublist_map {α β : Type} (l : List α) (f : α → List β)
    (q : α → β) (hf : ∀ d, f d = [] ∨ f d = [q d]) :
    List.Sublist (l.flatMap f) (l.map q) := by
  induction l with
  | nil => simp
  | cons d l ih =>
    rw [List.flatMap_cons, List.map_cons]
    rcases hf d with h | h
    · rw [h, List.nil_append]
      exact ih.cons _
    · rw [h, List.singleton_append]
      exact ih.cons₂ _

theorem installedTuples_nodup_keys (installed_plugins : InstalledReg)
    (hi : (installed_plugins.map Prod.fst).Nodup) :
    ((installedTuples installed_plugins).map (fun t => t.1)).Nodup := by
  apply nodup_keys_flatMap _ _ hi
  · intro x
    rcases x with ⟨kx, is⟩
    cases is <;> simp
  · intro x t ht
    rcases x with ⟨kx, is⟩
    cases is with
    | nil => simp at ht
    | cons i is =>
      simp at ht
      rw [ht]

theorem installedTuples_key_mem {installed_plugins : InstalledReg}
    {k : List Char}
    (hk : k ∈ (installedTuples installed_plugins).map (fun t => t.1)) :
    k ∈ installedKeys installed_plugins := by
  rcases List.mem_map.mp hk with ⟨t, ht, rfl⟩
  rcases List.mem_flatMap.mp ht with ⟨p, hp, htp⟩
  rcases p with ⟨kp, is⟩
  cases is with
  | nil => simp at htp
  | cons i is =>
    simp at htp
    rw [htp]
    exact List.mem_filterMap.mpr ⟨(kp, i :: is), hp, by simp⟩

theorem mem_marketScan_key {installed_plugins : InstalledReg} {fs : DirWalk}
    {mk : List Char × MarketplaceRecord} {k : List Char}
    (hk : k ∈ (marketScan installed_plugins fs mk).map (fun t => t.1)) :
    (∃ d ∈ fs.pluginDirs (mk.2.installLocation.getD []), k = d ++ '@' :: mk.1)
      ∧ k ∉ installedKeys installed_plugins := by
  rcases List.mem_map.mp hk with ⟨t, ht, rfl⟩
  rw [marketScan] at ht
  by_cases hl : mk.2.installLocation.getD [] = []
  · rw [if_pos hl] at ht
    simp at ht
  · rw [if_neg hl] at ht
    rcases List.mem_flatMap.mp ht with ⟨d, hd, htd⟩
    by_cases hm : d ++ '@' :: mk.1 ∈ installedKeys installed_plugins
    · rw [if_pos hm] at htd
      simp at htd
    · rw [if_neg hm] at htd
      simp at htd
      rw [htd]
      exact ⟨⟨d, hd, rfl⟩, hm⟩

theorem marketScan_nodup_keys (installed_plugins : InstalledReg) (fs : DirWalk)
    (mk : List Char × MarketplaceRecord)
    (hd : (fs.pluginDirs (mk.2.installLocation.getD [])).Nodup) :
    ((marketScan installed_plugins fs mk).map (fun t => t.1)).Nodup := by
  rw [marketScan]
  by_cases hl : mk.2.installLocation.getD [] = []
  · rw [if_pos hl]; simp
  · rw [if_neg hl, List.map_flatMap]
    have hinj : Function.Injective (fun d : List Char => d ++ '@' :: mk.1) :=
      fun a b hab => List.append_cancel_right hab
    refine List.Nodup.sublist ?_ (List.Nodup.map hinj hd)
    apply flatMap_sublist_map
    intro d
    by_cases hm : d ++ '@' :: mk.1 ∈ installedKeys installed_plugins
    · left; rw [if_pos hm]; rfl
    · right; rw [if_neg hm]; rfl

/-- C8 counterexample: in the `all` scope, a marketplace whose name contains
`@` lets two different marketplaces produce the same discovered plugin key:
marketplace `c` containing directory `a@b` and marketplace `b@c` containing
directory `a` both yield the key `a@b@c`, so the enumerator emits a
duplicate plugin key in one run. -/
theorem enumerator_duplicate_counterexample :
    ((get_plugins_to_check [] []
        [(cs "b@c", ⟨some (cs "/m1")⟩), (cs "c", ⟨some (cs "/m2")⟩)]
        ⟨fun loc => if loc = cs "/m1" then [cs "a"] else [cs "a@b"]⟩
        .all none).map (fun t => t.1))
      = [cs "a@b@c", cs "a@b@c"] ∧
    ¬ ((get_plugins_to_check [] []
        [(cs "b@c", ⟨some (cs "/m1")⟩), (cs "c", ⟨some (cs "/m2")⟩)]
        ⟨fun loc => if loc = cs "/m1" then [cs "a"] else [cs "a@b"]⟩
        .all none).map (fun t => t.1)).Nodup := by decide

/-- C8 (amended): for every scope (enabled, installed, all, or a specific
plugin), the enumerator emits no two tuples with the same plugin key,
provided no known marketplace's name contains `@` — in addition to what the
real data sources guarantee by construction: registry keys are unique (they
come from dicts) and the directory names discovered within one marketplace
are distinct (they come from one directory listing). -/
theorem enumerator_nodup_keys
    (installed_plugins : InstalledReg) (enabled_plugins : EnabledReg)
    (known_marketplaces : MarketReg) (fs : DirWalk)
    (scope : Scope) (specific_plugin : Option (List Char))
    (hi : (installed_plugins.map Prod.fst).Nodup)
    (he : (enabled_plugins.map Prod.fst).Nodup)
    (hk : (known_marketplaces.map Prod.fst).Nodup)
    (hat : ∀ p ∈ known_marketplaces, '@' ∉ p.1)
    (hfs : ∀ p ∈ known_marketplaces,
        (fs.pluginDirs (p.2.installLocation.getD [])).Nodup) :
    ((get_plugins_to_check installed_plugins enabled_plugins known_marketplaces
        fs scope specific_plugin).map (fun t => t.1)).Nodup := by
  unfold get_plugins_to_check
  by_cases htr : truthy specific_plugin = true
  · rw [htr, if_pos rfl]
    dsimp only
    apply nodup_of_length_le_one
    rw [List.length_map]
    by_cases hm : (parsePluginKey (specific_plugin.getD [])).2 ≠ []
    · rw [if_pos hm]
      cases get_installed_plugin_info installed_plugins
          (parsePluginKey (specific_plugin.getD [])).1
          (some (parsePluginKey (specific_plugin.getD [])).2) with
      | some info => simp
      | none => simp
    · rw [if_neg hm]
      exact firstTupleByName_length _ _
  · have htr' : truthy specific_plugin = false := by
      cases h : truthy specific_plugin
      · rfl
      · exact absurd h htr
    rw [htr', if_neg (by simp)]
    cases scope with
    | enabled =>
      apply nodup_keys_flatMap _ _ he
      · intro x
        dsimp only
        by_cases hx : x.2 = true
        · rw [if_pos hx]
          cases get_installed_plugin_info installed_plugins
              (parsePluginKey x.1).1 (some (parsePluginKey x.1).2) with
          | some info => simp
          | none => simp
        · rw [if_neg hx]; simp
      · intro x t ht
        dsimp only at ht
        by_cases hx : x.2 = true
        · rw [if_pos hx] at ht
          cases hg : get_installed_plugin_info installed_plugins
              (parsePluginKey x.1).1 (some (parsePluginKey x.1).2) with
          | some info =>
            rw [hg] at ht
            simp at ht
            simp [ht]
          | none =>
            rw [hg] at ht
            simp at ht
        · rw [if_neg hx] at ht
          simp at ht
    | installed =>
      exact installedTuples_nodup_keys installed_plugins hi
    | all =>
      rw [List.map_append]
      refine List.Nodup.append (installedTuples_nodup_keys installed_plugins hi)
        ?_ ?_
      · rw [List.map_flatMap, List.nodup_flatMap]
        constructor
        · intro mk hmk
          exact marketScan_nodup_keys installed_plugins fs mk (hfs mk hmk)
        · have hp : List.Pairwise
              (fun a b : List Char × MarketplaceRecord => a.1 ≠ b.1)
              known_marketplaces := List.pairwise_map.mp hk
          refine hp.imp_of_mem ?_
          intro a b ha hb hne k hk1 hk2
          obtain ⟨⟨d1, _, he1⟩, _⟩ := mem_marketScan_key hk1
          obtain ⟨⟨d2, _, he2⟩, _⟩ := mem_marketScan_key hk2
          have r1 : rsplitAmp k = some (d1, a.1) := by
            rw [he1]; exact rsplitAmp_append d1 a.1 (hat a ha)
          have r2 : rsplitAmp k = some (d2, b.1) := by
            rw [he2]; exact rsplitAmp_append d2 b.1 (hat b hb)
          rw [r1] at r2
          exact hne (congrArg Prod.snd (Option.some.inj r2))
      · intro k h1 h2
        have hmem : k ∈ installedKeys installed_plugins :=
          installedTuples_key_mem h1
        rw [List.map_flatMap] at h2
        rcases List.mem_flatMap.mp h2 with ⟨mk, hmk, hkmk⟩
        exact (mem_marketScan_key hkmk).2 hmem

/-- C8 witness: the amended invariant applied to a concrete two-marketplace
configuration with `@`-free marketplace names. -/
theorem enumerator_nodup_keys_witness :
    ((get_plugins_to_check
        [(cs "x@m1", [⟨some (cs "1.0.0"), some (cs "/x")⟩])] []
        [(cs "m1", ⟨some (cs "/m1")⟩), (cs "m2", ⟨some (cs "/m2")⟩)]
        ⟨fun loc => if loc = cs "/m1" then [cs "x", cs "y"] else [cs "x"]⟩
        .all none).map (fun t => t.1)).Nodup :=
  enumerator_nodup_keys _ _ _ _ .all none (by decide) (by decide) (by decide)
    (by decide) (by decide)
